import Mathlib

/-
Verification of the CSS rewriter of the monolith repository (src/css.rs).

The development shallowly embeds `process_css` / `embed_css` and the helper
functions of src/css.rs.  The cssparser tokenizer is an external collaborator:
its token stream is modelled as a tree (`Token` / `CTokens`), where a
block-start or function token directly carries the bounded sub-sequence that
`parse_nested_block` would expose for its interior, and end-of-stream errors of
`parser.next_including_whitespace_and_comments()` correspond to reaching the
end of a (sub-)sequence.  External collaborators (url resolution, asset
retrieval, data-url construction, cssparser serialization, tokenization) are
fields of an `Env` record, and the per-process random iteration order of
`std::collections::HashMap::values()` is modelled by the `values_order` field:
any permutation of the insertion-ordered association list.  The recursive call
of `embed_css` on fetched `@import` targets is threaded through an `er`
parameter and tied by a fuel parameter on `embed_css`; at fuel 0 the embedding
returns the empty stylesheet (a depth-bound artifact; every claim about
imports is stated at positive fuel).  `hash_url` is embedded with a full
executable SHA-256 over `Nat`.

Machine integers are modelled as `Nat` with explicit reduction mod 2^32 where
the Rust code computes on `u32` (inside SHA-256 only).  Rust f32 token payloads
(number/percentage/dimension) are modelled by their serialized representation
plus the sign information the code branches on, which is all `process_css`
uses of them.
-/

namespace Monolith

/-! ## SHA-256 over Nat (the sha2 crate dependency of `hash_url`) -/

def w32 : Nat := 4294967296

def add32 (a b : Nat) : Nat := (a + b) % w32

def rotr32 (n x : Nat) : Nat := ((x >>> n) ||| (x <<< (32 - n))) % w32

def shr32 (n x : Nat) : Nat := x >>> n

def sha256K : List Nat := [
  1116352408, 1899447441, 3049323471, 3921009573, 961987163,
  1508970993, 2453635748, 2870763221, 3624381080, 310598401,
  607225278, 1426881987, 1925078388, 2162078206, 2614888103,
  3248222580, 3835390401, 4022224774, 264347078, 604807628,
  770255983, 1249150122, 1555081692, 1996064986, 2554220882,
  2821834349, 2952996808, 3210313671, 3336571891, 3584528711,
  113926993, 338241895, 666307205, 773529912, 1294757372,
  1396182291, 1695183700, 1986661051, 2177026350, 2456956037,
  2730485921, 2820302411, 3259730800, 3345764771, 3516065817,
  3600352804, 4094571909, 275423344, 430227734, 506948616,
  659060556, 883997877, 958139571, 1322822218, 1537002063,
  1747873779, 1955562222, 2024104815, 2227730452, 2361852424,
  2428436474, 2756734187, 3204031479, 3329325298]

def sha256H0 : List Nat :=
  [1779033703, 3144134277, 1013904242, 2773480762,
   1359893119, 2600822924, 528734635, 1541459225]

/-- Big-endian 32-bit words from a byte list. -/
def bytesToWords : List Nat → List Nat
  | b0 :: b1 :: b2 :: b3 :: rest => (((b0 * 256 + b1) * 256 + b2) * 256 + b3) :: bytesToWords rest
  | _ => []

/-- SHA-256 padding: 0x80, zeros to 56 mod 64, then the 64-bit big-endian bit length. -/
def sha256Pad (msg : List Nat) : List Nat :=
  let len := msg.length
  let zeros := (119 - len % 64) % 64
  let bitLen := len * 8
  msg ++ [0x80] ++ List.replicate zeros 0 ++
    [bitLen / 2^56 % 256, bitLen / 2^48 % 256, bitLen / 2^40 % 256, bitLen / 2^32 % 256,
     bitLen / 2^24 % 256, bitLen / 2^16 % 256, bitLen / 2^8 % 256, bitLen % 256]

/-- Message-schedule extension of the 16 chunk words by `n` further words. -/
def sha256Extend (ws : List Nat) : Nat → List Nat
  | 0 => ws
  | n + 1 =>
    let ws := sha256Extend ws n
    match ws.get? (ws.length - 15), ws.get? (ws.length - 2) with
    | some w15, some w2 =>
      let s0 := (rotr32 7 w15) ^^^ (rotr32 18 w15) ^^^ (shr32 3 w15)
      let s1 := (rotr32 17 w2) ^^^ (rotr32 19 w2) ^^^ (shr32 10 w2)
      match ws.get? (ws.length - 16), ws.get? (ws.length - 7) with
      | some w16, some w7 => ws ++ [add32 (add32 w16 s0) (add32 w7 s1)]
      | _, _ => ws
    | _, _ => ws

/-- One SHA-256 compression round over the running hash. -/
def sha256Compress (h : List Nat) (chunk : List Nat) : List Nat :=
  let ws := sha256Extend chunk 48
  match h with
  | [a0, b0, c0, d0, e0, f0, g0, hh0] =>
    let step := fun (st : Nat × Nat × Nat × Nat × Nat × Nat × Nat × Nat) (kw : Nat × Nat) =>
      let (a, b, c, d, e, f, g, h) := st
      let (k, wt) := kw
      let s1 := (rotr32 6 e) ^^^ (rotr32 11 e) ^^^ (rotr32 25 e)
      let ch := (e &&& f) ^^^ ((w32 - 1 - e) &&& g)
      let t1 := add32 (add32 (add32 h s1) (add32 ch k)) wt
      let s0 := (rotr32 2 a) ^^^ (rotr32 13 a) ^^^ (rotr32 22 a)
      let mj := (a &&& b) ^^^ (a &&& c) ^^^ (b &&& c)
      let t2 := add32 s0 mj
      (add32 t1 t2, a, b, c, add32 d t1, e, f, g)
    let (a, b, c, d, e, f, g, h) := (sha256K.zip ws).foldl step (a0, b0, c0, d0, e0, f0, g0, hh0)
    [add32 a0 a, add32 b0 b, add32 c0 c, add32 d0 d, add32 e0 e, add32 f0 f, add32 g0 g, add32 hh0 h]
  | _ => h

/-- Splits into 64-byte chunks.  The fuel (first argument, instantiated with the
list length, an upper bound on the number of chunks) keeps the recursion
structural so that it reduces inside the kernel. -/
def chunksGo : Nat → List Nat → List (List Nat)
  | _, [] => []
  | 0, _ :: _ => []
  | n + 1, a :: rest => (a :: rest).take 64 :: chunksGo n ((a :: rest).drop 64)

def chunks64 (l : List Nat) : List (List Nat) := chunksGo l.length l

def sha256Words (msg : List Nat) : List Nat :=
  (chunks64 (sha256Pad msg)).foldl (fun h c => sha256Compress h (bytesToWords c)) sha256H0

def hexDigit (n : Nat) : Char :=
  if n < 10 then Char.ofNat (48 + n) else Char.ofNat (87 + n)

/-- Lowercase zero-padded hex of one 32-bit word. -/
def hex8 (n : Nat) : List Char :=
  [hexDigit (n / 2^28 % 16), hexDigit (n / 2^24 % 16), hexDigit (n / 2^20 % 16),
   hexDigit (n / 2^16 % 16), hexDigit (n / 2^12 % 16), hexDigit (n / 2^8 % 16),
   hexDigit (n / 2^4 % 16), hexDigit (n % 16)]

/-- The `{:x}` rendering of a SHA-256 digest: 64 lowercase hex characters. -/
def sha256Hex (msg : List Nat) : String :=
  ⟨(sha256Words msg).foldr (fun wd acc => hex8 wd ++ acc) []⟩

/-- UTF-8 encoding of one scalar value (`str::as_bytes` on the Rust side). -/
def utf8EncodeChar (c : Char) : List Nat :=
  let n := c.toNat
  if n < 0x80 then [n]
  else if n < 0x800 then [0xC0 + n / 0x40, 0x80 + n % 0x40]
  else if n < 0x10000 then [0xE0 + n / 0x1000, 0x80 + (n / 0x40) % 0x40, 0x80 + n % 0x40]
  else [0xF0 + n / 0x40000, 0x80 + (n / 0x1000) % 0x40, 0x80 + (n / 0x40) % 0x40, 0x80 + n % 0x40]

def utf8Bytes (s : String) : List Nat :=
  s.data.foldr (fun c acc => utf8EncodeChar c ++ acc) []

/-- Embeds `hash_url` (src/css.rs lines 68-73): hex SHA-256 of the UTF-8 bytes
of the URL string. -/
def hash_url (url : String) : String := sha256Hex (utf8Bytes url)

/-! ## String helpers (Rust `str::trim` and friends, over the character sets
that occur here; `cssTrim` embeds `str::trim`, `cssTrimEnd` embeds
`str::trim_end`) -/

def isCssWs (c : Char) : Bool :=
  c == ' ' || c == '\t' || c == '\n' || c == '\r' || c == '\x0b' || c == '\x0c'

def trimWsList (l : List Char) : List Char :=
  ((l.dropWhile isCssWs).reverse.dropWhile isCssWs).reverse

def cssTrim (s : String) : String := ⟨trimWsList s.data⟩

def cssTrimEnd (s : String) : String := ⟨(s.data.reverse.dropWhile isCssWs).reverse⟩

/-- Embeds the final adjustment of `process_css` (lines 480-483): an output that
is non-empty but entirely whitespace is replaced by its trim (the empty
string). -/
def finalTrim (s : String) : String :=
  if !s.data.isEmpty && (cssTrim s).data.isEmpty then cssTrim s else s

def startsWithStr (s p : String) : Bool := s.data.take p.data.length == p.data

def asciiLower (c : Char) : Char :=
  if 'A' ≤ c && c ≤ 'Z' then Char.ofNat (c.toNat + 32) else c

/-- Embeds `str::eq_ignore_ascii_case`. -/
def eqIgnoreAsciiCase (a b : String) : Bool :=
  a.data.map asciiLower == b.data.map asciiLower

/-! ## Data model -/

/-- Embeds the `url::Url` values this module consumes: the full serialized form
(`as_ref` / `as_str` / `to_string`), the scheme, and the fragment. -/
structure Url where
  str : String
  scheme : String
  fragment : Option String
deriving DecidableEq

/-- Embeds `CssPropAsset` (src/css.rs lines 75-78). -/
structure CssPropAsset where
  prop_name : String
  data_url : String
deriving DecidableEq

/-- Embeds the dedup registry `HashMap<String, CssPropAsset>` as an association
list in insertion order; `values_order` in `Env` supplies the traversal order
of `HashMap::values()`. -/
abbrev Registry := List (String × CssPropAsset)

/-- Embeds `HashMap::get` on the registry. -/
def lookupAsset (reg : Registry) (key : String) : Option CssPropAsset :=
  match reg.find? (fun e => e.1 == key) with
  | some e => some e.2
  | none => none

def regKeys (reg : Registry) : List String := reg.map (fun e => e.1)

/-- The session options consumed by this module. -/
structure Options where
  no_fonts : Bool
  no_images : Bool
  exp_css_prop_assets : Bool

mutual
/-- Embeds `cssparser::Token`.  `comment` and `whiteSpace` carry the raw source
slice that the code emits verbatim.  Number-like tokens carry the sign flag,
the nonnegativity of the stored f32 value, and the string serialization of the
(scaled, for percentages) value, which is everything the rewriter reads of
them.  Block and function tokens carry the bounded sub-sequence that
`parse_nested_block` exposes for their interior. -/
inductive Token where
  | comment (raw : String)
  | semicolon
  | colon
  | comma
  | parenBlock (inner : CTokens)
  | squareBlock (inner : CTokens)
  | curlyBlock (inner : CTokens)
  | closeParen
  | closeSquare
  | closeCurly
  | includeMatch
  | dashMatch
  | matchAtStart
  | matchAtEnd
  | substringMatch
  | cdo
  | cdc
  | whiteSpace (raw : String)
  | ident (value : String)
  | atKeyword (value : String)
  | hash (value : String)
  | quotedString (value : String)
  | number (hasSign : Bool) (isNonneg : Bool) (valueRepr : String)
  | percentage (hasSign : Bool) (isNonneg : Bool) (valueRepr : String)
  | dimension (hasSign : Bool) (isNonneg : Bool) (valueRepr : String) (unit : String)
  | idHash (value : String)
  | unquotedUrl (value : String)
  | delim (value : Char)
  | function (name : String) (args : CTokens)
  | badUrl
  | badString

/-- A token sequence (spelled as a mutual inductive rather than `List Token`
so that the rewriter is structurally recursive and kernel-reducible). -/
inductive CTokens where
  | nil
  | cons (t : Token) (rest : CTokens)
end

/-- The external collaborators of src/css.rs, plus the iteration-order
parameter of the registry HashMap. -/
structure Env where
  options : Options
  /-- Embeds `resolve_url(base, reference)`. -/
  resolve_url : Url → String → Url
  /-- Embeds `session.retrieve_asset(document_url, url)`:
  `some (data, final_url, media_type, charset)` on success, `none` on error. -/
  retrieve_asset : Url → Url → Option (List Nat × Url × String × String)
  /-- Embeds `create_data_url(media_type, charset, data, final_url)`. -/
  create_data_url : String → String → List Nat → Url → Url
  /-- Embeds `Url::set_fragment`. -/
  set_fragment : Url → Option String → Url
  /-- Embeds `String::from_utf8_lossy`. -/
  utf8_lossy : List Nat → String
  /-- Embeds `cssparser::serialize_identifier` (output written to a string). -/
  serialize_identifier : String → String
  /-- Embeds `cssparser::serialize_string` (output written to a string). -/
  serialize_string : String → String
  /-- Embeds the cssparser tokenizer applied to a stylesheet text. -/
  tokenize : String → CTokens
  /-- Embeds the traversal order of `HashMap::values()`: a function of the
  per-process random hasher seed; any permutation of the entries. -/
  values_order : Registry → Registry
  /-- Embeds `EMPTY_IMAGE_DATA_URL`. -/
  empty_image_data_url : String

/-- Embeds `format_ident` (lines 49-54). -/
def format_ident (env : Env) (ident : String) : String :=
  cssTrimEnd (env.serialize_identifier ident)

/-- Embeds `format_quoted_string` (lines 56-60). -/
def format_quoted_string (env : Env) (string : String) : String :=
  env.serialize_string string

/-- Embeds `CSS_PROPS_WITH_IMAGE_URLS` (lines 12-31). -/
def CSS_PROPS_WITH_IMAGE_URLS : List String := [
  "background",
  "background-image",
  "border-image",
  "border-image-source",
  "content",
  "cursor",
  "list-style",
  "list-style-image",
  "mask",
  "mask-image",
  "additive-symbols",
  "negative",
  "pad",
  "prefix",
  "suffix",
  "symbols"]

/-- Embeds `is_image_url_prop` (lines 62-66). -/
def is_image_url_prop (prop_name : String) : Bool :=
  CSS_PROPS_WITH_IMAGE_URLS.any (fun p => eqIgnoreAsciiCase prop_name p)

/-! ## The token rewriter

`goTok`/`goToks` embed the loop body and loop of `process_css` (lines 97-478).
The mutable locals `curr_rule`/`curr_prop` are threaded as `cr`/`cp`; `rp` and
`fp` are the `rule_name` and `func_name` parameters of the enclosing
invocation (the code reads those parameters, not the current values, when it
recurses into a bare block).  `er` stands for the recursive `embed_css` call
performed on fetched `@import` targets; it is instantiated with `embed_css`
at one less fuel below.  The `Except` layer carries the `Result` type of
`process_css` together with the `.unwrap()` panics on nested results: an
error value would propagate exactly where a panic would abort.  Each token
yields its contribution to `result`; for the unquoted-URL dedup path the code
pushes `url(` and later truncates those four bytes again (lines 349, 382,
399), which here appears directly as a contribution starting with `var(--`. -/

mutual
def goTok (env : Env) (er : Url → String → Except String String) (base : Url)
    (rp fp : String) (t : Token) (cr cp : String) (reg : Registry) :
    Except String (String × String × String × Registry) :=
  match t with
  | .comment raw => .ok (raw, cr, cp, reg)
  | .semicolon => .ok (";", cr, cp, reg)
  | .colon => .ok (":", cr, cp, reg)
  | .comma => .ok (",", cr, cp, reg)
  | .parenBlock inner =>
    if env.options.no_fonts && cr == "font-face" then .ok ("", cr, cp, reg)
    else
      match goToks env er base rp fp inner rp cp reg with
      | .error e => .error e
      | .ok (block_css, reg') => .ok ("(" ++ finalTrim block_css ++ ")", cr, cp, reg')
  | .squareBlock inner =>
    if env.options.no_fonts && cr == "font-face" then .ok ("", cr, cp, reg)
    else
      match goToks env er base rp fp inner rp cp reg with
      | .error e => .error e
      | .ok (block_css, reg') => .ok ("[" ++ finalTrim block_css ++ "]", cr, cp, reg')
  | .curlyBlock inner =>
    if env.options.no_fonts && cr == "font-face" then .ok ("", cr, cp, reg)
    else
      match goToks env er base rp fp inner rp cp reg with
      | .error e => .error e
      | .ok (block_css, reg') =>
        .ok ("\x7b" ++ finalTrim block_css ++ "\x7d", cr, cp, reg')
  | .closeParen => .ok (")", cr, cp, reg)
  | .closeSquare => .ok ("]", cr, cp, reg)
  | .closeCurly => .ok ("\x7d", cr, cp, reg)
  | .includeMatch => .ok ("~=", cr, cp, reg)
  | .dashMatch => .ok ("|=", cr, cp, reg)
  | .matchAtStart => .ok ("^=", cr, cp, reg)
  | .matchAtEnd => .ok ("$=", cr, cp, reg)
  | .substringMatch => .ok ("*=", cr, cp, reg)
  | .cdo => .ok ("<!--", cr, cp, reg)
  | .cdc => .ok ("-->", cr, cp, reg)
  | .whiteSpace raw => .ok (raw, cr, cp, reg)
  | .ident value => .ok (format_ident env value, "", value, reg)
  | .atKeyword value =>
    if env.options.no_fonts && value == "font-face" then .ok ("", value, cp, reg)
    else .ok ("@" ++ value, value, cp, reg)
  | .hash value => .ok ("#" ++ value, cr, cp, reg)
  | .quotedString value =>
    if cr == "import" then
      if value == "" then .ok ("\x27\x27", "", cp, reg)
      else
        let import_full_url := env.resolve_url base value
        match env.retrieve_asset base import_full_url with
        | some (import_contents, import_final_url, import_media_type, import_charset) =>
          match er import_final_url (env.utf8_lossy import_contents) with
          | .error e => .error e
          | .ok embedded =>
            let import_data_url :=
              env.set_fragment
                (env.create_data_url import_media_type import_charset (utf8Bytes embedded)
                  import_final_url)
                import_full_url.fragment
            .ok (format_quoted_string env import_data_url.str, "", cp, reg)
        | none =>
          if import_full_url.scheme == "http" || import_full_url.scheme == "https" then
            .ok (format_quoted_string env import_full_url.str, "", cp, reg)
          else .ok ("", "", cp, reg)
    else if fp == "url" then
      if value == "" then .ok ("", cr, cp, reg)
      else if env.options.no_images && is_image_url_prop cp then
        .ok (format_quoted_string env env.empty_image_data_url, cr, cp, reg)
      else
        let resolved_url := env.resolve_url base value
        match env.retrieve_asset base resolved_url with
        | some (data, final_url, media_type, charset) =>
          if is_image_url_prop cp && env.options.exp_css_prop_assets then
            match lookupAsset reg final_url.str with
            | some asset => .ok ("var(--" ++ asset.prop_name ++ ")", cr, cp, reg)
            | none =>
              let data_url :=
                env.set_fragment (env.create_data_url media_type charset data final_url)
                  resolved_url.fragment
              let var_name := "img-" ++ hash_url final_url.str
              let asset := CssPropAsset.mk var_name (format_quoted_string env data_url.str)
              .ok ("var(--" ++ var_name ++ ")", cr, cp, reg ++ [(final_url.str, asset)])
          else
            let data_url :=
              env.set_fragment (env.create_data_url media_type charset data final_url)
                resolved_url.fragment
            .ok ("url(" ++ format_quoted_string env data_url.str ++ ")", cr, cp, reg)
        | none =>
          if resolved_url.scheme == "http" || resolved_url.scheme == "https" then
            .ok ("url(" ++ format_quoted_string env resolved_url.str ++ ")", cr, cp, reg)
          else .ok ("", cr, cp, reg)
    else .ok (format_quoted_string env value, cr, cp, reg)
  | .number hasSign isNonneg valueRepr =>
    .ok ((if hasSign && isNonneg then "+" else "") ++ valueRepr, cr, cp, reg)
  | .percentage hasSign isNonneg valueRepr =>
    .ok ((if hasSign && isNonneg then "+" else "") ++ valueRepr ++ "%", cr, cp, reg)
  | .dimension hasSign isNonneg valueRepr unit =>
    .ok ((if hasSign && isNonneg then "+" else "") ++ valueRepr ++ unit, cr, cp, reg)
  | .idHash value => .ok ("#" ++ format_ident env value, "", cp, reg)
  | .unquotedUrl value =>
    let is_import := cr == "import"
    let cr := if is_import then "" else cr
    if value == "" then .ok ("url()", cr, cp, reg)
    else if startsWithStr value "#" then .ok ("url(" ++ value ++ ")", cr, cp, reg)
    else if is_import then
      let full_url := env.resolve_url base value
      match env.retrieve_asset base full_url with
      | some (css, final_url, media_type, charset) =>
        match er final_url (env.utf8_lossy css) with
        | .error e => .error e
        | .ok embedded =>
          let data_url :=
            env.set_fragment
              (env.create_data_url media_type charset (utf8Bytes embedded) final_url)
              full_url.fragment
          .ok ("url(" ++ format_quoted_string env data_url.str ++ ")", cr, cp, reg)
      | none =>
        if full_url.scheme == "http" || full_url.scheme == "https" then
          .ok ("url(" ++ format_quoted_string env full_url.str ++ ")", cr, cp, reg)
        else .ok ("url()", cr, cp, reg)
    else if is_image_url_prop cp && env.options.no_images then
      .ok ("url(" ++ format_quoted_string env env.empty_image_data_url ++ ")", cr, cp, reg)
    else
      let full_url := env.resolve_url base value
      match env.retrieve_asset base full_url with
      | some (data, final_url, media_type, charset) =>
        if is_image_url_prop cp && env.options.exp_css_prop_assets then
          match lookupAsset reg final_url.str with
          | some asset => .ok ("var(--" ++ asset.prop_name ++ ")", cr, cp, reg)
          | none =>
            let data_url :=
              env.set_fragment (env.create_data_url media_type charset data final_url)
                final_url.fragment
            let var_name := "img-" ++ hash_url final_url.str
            .ok ("var(--" ++ var_name ++ ")", cr, cp,
              reg ++ [(final_url.str, CssPropAsset.mk var_name
                (format_quoted_string env data_url.str))])
        else
          let data_url :=
            env.set_fragment (env.create_data_url media_type charset data final_url)
              full_url.fragment
          .ok ("url(" ++ format_quoted_string env data_url.str ++ ")", cr, cp, reg)
      | none =>
        if full_url.scheme == "http" || full_url.scheme == "https" then
          .ok ("url(" ++ format_quoted_string env full_url.str ++ ")", cr, cp, reg)
        else .ok ("url()", cr, cp, reg)
  | .delim value => .ok (String.singleton value, cr, cp, reg)
  | .function name args =>
    if eqIgnoreAsciiCase name "url" then
      match goToks env er base cr name args cr cp reg with
      | .error e => .error e
      | .ok (inner0, reg') =>
        let inner := finalTrim inner0
        let inner_trimmed := cssTrim inner
        if inner_trimmed.data.isEmpty then .ok ("url()", cr, cp, reg')
        else if startsWithStr inner_trimmed "url(" || startsWithStr inner_trimmed "var(" then
          .ok (inner, cr, cp, reg')
        else .ok ("url(" ++ inner ++ ")", cr, cp, reg')
    else
      match goToks env er base cr name args cr cp reg with
      | .error e => .error e
      | .ok (block_css, reg') =>
        .ok (name ++ "(" ++ finalTrim block_css ++ ")", cr, cp, reg')
  | .badUrl => .ok ("", cr, cp, reg)
  | .badString => .ok ("", cr, cp, reg)

def goToks (env : Env) (er : Url → String → Except String String) (base : Url)
    (rp fp : String) (ts : CTokens) (cr cp : String) (reg : Registry) :
    Except String (String × Registry) :=
  match ts with
  | .nil => .ok ("", reg)
  | .cons t rest =>
    match goTok env er base rp fp t cr cp reg with
    | .error e => .error e
    | .ok (s, cr', cp', reg') =>
      match goToks env er base rp fp rest cr' cp' reg' with
      | .error e => .error e
      | .ok (s2, reg2) => .ok (s ++ s2, reg2)
end

/-- Embeds `process_css` (lines 80-486): the token loop followed by the final
whitespace adjustment. -/
def process_css (env : Env) (er : Url → String → Except String String) (document_url : Url)
    (rule_name prop_name func_name : String) (ts : CTokens) (css_assets : Registry) :
    Except String (String × Registry) :=
  match goToks env er document_url rule_name func_name ts rule_name prop_name css_assets with
  | .error e => .error e
  | .ok (result, reg) => .ok (finalTrim result, reg)

/-- One trailer declaration of `embed_css` (line 42). -/
def property_decl (asset : CssPropAsset) : String :=
  "@property --" ++ asset.prop_name ++
    " \x7binherits: false; syntax: \"<url>\"; initial-value: url(" ++ asset.data_url ++ ");\x7d"

/-- The trailer loop of `embed_css` (lines 40-44) over the entries in the order
`HashMap::values()` yields them. -/
def css_trailer (entries : Registry) : String :=
  entries.foldl (fun acc e => acc ++ property_decl e.2) ""

/-- The body of `embed_css` (lines 33-47), with the recursive occurrence of
`embed_css` (for `@import` targets) abstracted as `er`. -/
def embed_css_body (env : Env) (er : Url → String → Except String String)
    (document_url : Url) (css : String) : Except String String :=
  match process_css env er document_url "" "" "" (env.tokenize css) [] with
  | .error e => .error e
  | .ok (out, assets) =>
    .ok (if assets.isEmpty then out else out ++ css_trailer (env.values_order assets))

/-- Embeds `embed_css`, closing the import recursion with a fuel bound on
the import nesting depth.  At fuel 0 (deeper nesting than fuel) the result
is the empty stylesheet; every claim about import behaviour is stated at
positive fuel. -/
def embed_css (env : Env) : Nat → Url → String → Except String String
  | 0 => fun _ _ => .ok ""
  | fuel + 1 => fun document_url css => embed_css_body env (embed_css env fuel) document_url css

/-! ## Spec-side definitions for the identity claim -/

mutual
/-- Modelled from the spec: the per-token purity classifier for "well-formed
CSS input containing no external references".  A token stream is pure when,
threading the same `curr_rule` updates the rewriter performs, it reaches no
reference position: no quoted string while the current rule is `import` or the
enclosing function is `url`, no non-empty non-fragment unquoted URL, and no
`url(...)` function token.  Returns (purity, updated current rule name). -/
def pureTok (rp fp : String) (t : Token) (cr : String) : Bool × String :=
  match t with
  | .comment _ => (true, cr)
  | .semicolon => (true, cr)
  | .colon => (true, cr)
  | .comma => (true, cr)
  | .parenBlock inner => (pureToks rp fp inner rp, cr)
  | .squareBlock inner => (pureToks rp fp inner rp, cr)
  | .curlyBlock inner => (pureToks rp fp inner rp, cr)
  | .closeParen => (true, cr)
  | .closeSquare => (true, cr)
  | .closeCurly => (true, cr)
  | .includeMatch => (true, cr)
  | .dashMatch => (true, cr)
  | .matchAtStart => (true, cr)
  | .matchAtEnd => (true, cr)
  | .substringMatch => (true, cr)
  | .cdo => (true, cr)
  | .cdc => (true, cr)
  | .whiteSpace _ => (true, cr)
  | .ident _ => (true, "")
  | .atKeyword v => (true, v)
  | .hash _ => (true, cr)
  | .quotedString _ => (!(cr == "import" || fp == "url"), cr)
  | .number _ _ _ => (true, cr)
  | .percentage _ _ _ => (true, cr)
  | .dimension _ _ _ _ => (true, cr)
  | .idHash _ => (true, "")
  | .unquotedUrl v => (v == "" || startsWithStr v "#", if cr == "import" then "" else cr)
  | .delim _ => (true, cr)
  | .function name args => (!eqIgnoreAsciiCase name "url" && pureToks cr name args cr, cr)
  | .badUrl => (true, cr)
  | .badString => (true, cr)

/-- Modelled from the spec: purity of a whole token sequence, threading the
current rule name. -/
def pureToks (rp fp : String) (ts : CTokens) (cr : String) : Bool :=
  match ts with
  | .nil => true
  | .cons t rest => (pureTok rp fp t cr).1 && pureToks rp fp rest (pureTok rp fp t cr).2
end

mutual
/-- Modelled from the spec (section 4.1): the canonical re-serialization of a
single non-reference token — every byte reproduced, with identifiers and
strings re-escaped and numeric tokens re-serialized from their parsed value.
Comparing `process_css` against this serializer expresses "identity up to
whitespace and escaping normalization" at the token level. -/
def specSerializeTok (env : Env) (t : Token) : String :=
  match t with
  | .comment raw => raw
  | .semicolon => ";"
  | .colon => ":"
  | .comma => ","
  | .parenBlock inner => "(" ++ specSerialize env inner ++ ")"
  | .squareBlock inner => "[" ++ specSerialize env inner ++ "]"
  | .curlyBlock inner => "\x7b" ++ specSerialize env inner ++ "\x7d"
  | .closeParen => ")"
  | .closeSquare => "]"
  | .closeCurly => "\x7d"
  | .includeMatch => "~="
  | .dashMatch => "|="
  | .matchAtStart => "^="
  | .matchAtEnd => "$="
  | .substringMatch => "*="
  | .cdo => "<!--"
  | .cdc => "-->"
  | .whiteSpace raw => raw
  | .ident v => format_ident env v
  | .atKeyword v => "@" ++ v
  | .hash v => "#" ++ v
  | .quotedString v => format_quoted_string env v
  | .number hasSign isNonneg valueRepr =>
    (if hasSign && isNonneg then "+" else "") ++ valueRepr
  | .percentage hasSign isNonneg valueRepr =>
    (if hasSign && isNonneg then "+" else "") ++ valueRepr ++ "%"
  | .dimension hasSign isNonneg valueRepr unit =>
    (if hasSign && isNonneg then "+" else "") ++ valueRepr ++ unit
  | .idHash v => "#" ++ format_ident env v
  | .unquotedUrl v => "url(" ++ v ++ ")"
  | .delim c => String.singleton c
  | .function name args => name ++ "(" ++ specSerialize env args ++ ")"
  | .badUrl => ""
  | .badString => ""

/-- Modelled from the spec: canonical re-serialization of a token sequence. -/
def specSerialize (env : Env) (ts : CTokens) : String :=
  match ts with
  | .nil => ""
  | .cons t rest => specSerializeTok env t ++ specSerialize env rest
end

/-- Characters that are not whitespace survive; equality after `wsErase`
is the "up to whitespace" quotient used to state the identity claim. -/
def wsErase (s : String) : List Char := s.data.filter (fun c => !isCssWs c)

/-! ## Registry invariants -/

/-- Every registry entry carries the generated name derived from its key. -/
def NameInv (reg : Registry) : Prop :=
  ∀ e ∈ reg, e.2.prop_name = "img-" ++ hash_url e.1

/-- The registry invariant of the dedup claim: no two entries for the same
final URL, and every generated name is the digest-derived name of its key. -/
def RegInv (reg : Registry) : Prop := (regKeys reg).Nodup ∧ NameInv reg

/-! ## Helper accessors and concrete instances used by witnesses and
counterexamples -/

def okStr (r : Except String String) : String :=
  match r with
  | .ok s => s
  | .error _ => ""

def prependOk (p : String) (r : Except String (String × Registry)) :
    Except String (String × Registry) :=
  match r with
  | .error e => .error e
  | .ok (s, reg) => .ok (p ++ s, reg)

/-- A trivial recursive-embed stand-in for statements about single tokens. -/
def erNone : Url → String → Except String String := fun _ _ => .ok ""

def docUrl : Url := ⟨"http://example.com/style.css", "http", none⟩

/-- A concrete environment: everything resolves to a `file` scheme URL and
retrieval always fails. -/
def envBase : Env := {
  options := ⟨false, false, false⟩
  resolve_url := fun _ ref => ⟨ref, "file", none⟩
  retrieve_asset := fun _ _ => none
  create_data_url := fun _ _ _ u => ⟨"data:stub-" ++ u.str, "data", none⟩
  set_fragment := fun u f => { u with fragment := f }
  utf8_lossy := fun _ => ""
  serialize_identifier := fun s => s
  serialize_string := fun s => "\"" ++ s ++ "\""
  tokenize := fun _ => .nil
  values_order := fun l => l
  empty_image_data_url := "data:image/png;base64,AAAA"
}

/-- A concrete environment where every reference resolves to an `http` URL and
retrieval succeeds with a two-byte payload. -/
def envFetch : Env := { envBase with
  resolve_url := fun _ ref => ⟨ref, "http", none⟩
  retrieve_asset := fun _ u => some ([104, 105], ⟨u.str, "http", none⟩, "image/png", "") }

/-- `envFetch` with the dedup custom-property mode enabled. -/
def envDedup : Env := { envFetch with options := ⟨false, false, true⟩ }

/-- Two `background` declarations referencing two distinct assets. -/
def twoAssetToks : CTokens :=
  .cons (.ident "background") (.cons .colon
    (.cons (.function "url" (.cons (.quotedString "a.png") .nil))
      (.cons .semicolon
        (.cons (.ident "background") (.cons .colon
          (.cons (.function "url" (.cons (.quotedString "b.png") .nil)) .nil))))))

def envTwoAssets : Env := { envDedup with tokenize := fun _ => twoAssetToks }

/-- The same run under a different per-process HashMap seed: `values_order`
yields the entries in the opposite order. -/
def envTwoAssetsRev : Env := { envTwoAssets with values_order := fun l => l.reverse }

/-- An environment whose identifier serializer visibly escapes, to separate
raw emission from escaped emission. -/
def envEsc : Env := { envBase with serialize_identifier := fun s => "ESC-" ++ s }

/-- An environment with the "no fonts" policy active. -/
def envNoFonts : Env := { envBase with options := ⟨true, false, false⟩ }


/-- A concrete pure stylesheet: a `body` selector with one color declaration
in a curly block. -/
def pureSample : CTokens :=
  .cons (.ident "body") (.cons (.whiteSpace " ")
    (.cons (.curlyBlock (.cons (.ident "color") (.cons .colon
      (.cons (.idHash "fff") .nil)))) .nil))

/-- An environment whose tokenizer yields the pure sample. -/
def envPure : Env := { envBase with tokenize := fun _ => pureSample }

/-! ## Generic step lemmas -/

theorem prependOk_empty (r : Except String (String × Registry)) : prependOk "" r = r := by
  rcases r with e | ⟨s, reg⟩ <;> simp [prependOk]

theorem goToks_cons_ok {env : Env} {er : Url → String → Except String String} {b : Url}
    {rp fp cr cp : String} {reg : Registry} {t : Token} {rest : CTokens}
    {s cr' cp' : String} {reg' : Registry}
    (h : goTok env er b rp fp t cr cp reg = .ok (s, cr', cp', reg')) :
    goToks env er b rp fp (.cons t rest) cr cp reg =
      prependOk s (goToks env er b rp fp rest cr' cp' reg') := by
  rw [goToks, h]
  rcases hr : goToks env er b rp fp rest cr' cp' reg' with e | ⟨s2, reg2⟩ <;> simp [prependOk, hr]

theorem goTok_hash {env : Env} {er : Url → String → Except String String} {b : Url}
    {rp fp cr cp : String} {reg : Registry} {v : String} :
    goTok env er b rp fp (.hash v) cr cp reg = .ok ("#" ++ v, cr, cp, reg) := by
  rw [goTok]

theorem goTok_idHash {env : Env} {er : Url → String → Except String String} {b : Url}
    {rp fp cr cp : String} {reg : Registry} {v : String} :
    goTok env er b rp fp (.idHash v) cr cp reg = .ok ("#" ++ format_ident env v, "", cp, reg) := by
  rw [goTok]

theorem goTok_curly_skip {env : Env} {er : Url → String → Except String String} {b : Url}
    {rp fp cr cp : String} {reg : Registry} {inner : CTokens}
    (hnf : env.options.no_fonts = true) (hcr : cr = "font-face") :
    goTok env er b rp fp (.curlyBlock inner) cr cp reg = .ok ("", cr, cp, reg) := by
  rw [goTok]; simp [hnf, hcr]

theorem goTok_paren_skip {env : Env} {er : Url → String → Except String String} {b : Url}
    {rp fp cr cp : String} {reg : Registry} {inner : CTokens}
    (hnf : env.options.no_fonts = true) (hcr : cr = "font-face") :
    goTok env er b rp fp (.parenBlock inner) cr cp reg = .ok ("", cr, cp, reg) := by
  rw [goTok]; simp [hnf, hcr]

theorem goTok_square_skip {env : Env} {er : Url → String → Except String String} {b : Url}
    {rp fp cr cp : String} {reg : Registry} {inner : CTokens}
    (hnf : env.options.no_fonts = true) (hcr : cr = "font-face") :
    goTok env er b rp fp (.squareBlock inner) cr cp reg = .ok ("", cr, cp, reg) := by
  rw [goTok]; simp [hnf, hcr]

/-! ## Claim C4 -/

/-- Claim C4: with the "no fonts" policy active and the current rule name
`font-face`, a block token contributes no output bytes — the whole nested
sub-sequence `inner` is consumed with the token and discarded — and the
processing of all tokens after the block continues from the unchanged state,
for all three block kinds. -/
theorem c4_no_fonts_font_face_block_skipped
    (env : Env) (er : Url → String → Except String String) (b : Url)
    (rp fp cp : String) (reg : Registry) (inner rest : CTokens)
    (hnf : env.options.no_fonts = true) :
    goToks env er b rp fp (.cons (.curlyBlock inner) rest) "font-face" cp reg =
      goToks env er b rp fp rest "font-face" cp reg ∧
    goToks env er b rp fp (.cons (.parenBlock inner) rest) "font-face" cp reg =
      goToks env er b rp fp rest "font-face" cp reg ∧
    goToks env er b rp fp (.cons (.squareBlock inner) rest) "font-face" cp reg =
      goToks env er b rp fp rest "font-face" cp reg := by
  exact ⟨by rw [goToks_cons_ok (goTok_curly_skip hnf rfl), prependOk_empty],
    by rw [goToks_cons_ok (goTok_paren_skip hnf rfl), prependOk_empty],
    by rw [goToks_cons_ok (goTok_square_skip hnf rfl), prependOk_empty]⟩

/-- Witness for C4 at a concrete environment, block content and continuation. -/
theorem c4_witness :
    goToks envNoFonts erNone docUrl "" ""
        (.cons (.curlyBlock (.cons (.ident "src") .nil)) (.cons (.ident "p") .nil))
        "font-face" "" [] =
      goToks envNoFonts erNone docUrl "" "" (.cons (.ident "p") .nil) "font-face" "" [] :=
  (c4_no_fonts_font_face_block_skipped envNoFonts erNone docUrl "" "" "" []
    (.cons (.ident "src") .nil) (.cons (.ident "p") .nil) rfl).1

/-! ## Claim C8 -/

/-- Claim C8 (corrected): a plain hash token (`Token::Hash`) emits `#` plus the
raw token value and leaves `current_rule_name` unchanged, while an ID-hash
token (`Token::IDHash`) emits `#` plus the escaped identifier and clears
`current_rule_name`.  The claim attributed the clearing and the escaping to
every hash-name token; only the ID-hash arm has them. -/
theorem c8_hash_tokens (env : Env) (er : Url → String → Except String String) (b : Url)
    (rp fp cr cp : String) (reg : Registry) (v : String) (rest : CTokens) :
    goToks env er b rp fp (.cons (.hash v) rest) cr cp reg =
      prependOk ("#" ++ v) (goToks env er b rp fp rest cr cp reg) ∧
    goToks env er b rp fp (.cons (.idHash v) rest) cr cp reg =
      prependOk ("#" ++ format_ident env v) (goToks env er b rp fp rest "" cp reg) :=
  ⟨goToks_cons_ok goTok_hash, goToks_cons_ok goTok_idHash⟩

/-- Counterexample for C8 as stated: processing the hash token `#x` neither
clears `current_rule_name` (it stays `import`, so the following quoted string
is still treated as an import target and — failing, non-web — is dropped) nor
emits the identifier-escaped serialization. -/
theorem c8_counterexample :
    goTok envEsc erNone docUrl "" "" (.hash "x") "import" "" [] =
      .ok ("#x", "import", "", []) ∧
    "import" ≠ "" ∧
    "#x" ≠ "#" ++ format_ident envEsc "x" ∧
    goToks envEsc erNone docUrl "" ""
        (.cons (.hash "x") (.cons (.quotedString "q") .nil)) "import" "" [] =
      .ok ("#x", []) := by
  refine ⟨by rw [goTok]; rfl, by decide, by decide, by rfl⟩

/-! ## Claim C3 -/

/-- Counterexample for C3 as stated: an unquoted URL reference whose resolver
call fails and whose resolved scheme is not web is not dropped entirely — the
already-emitted `url(` prefix is closed, so the reference leaves `url()` in
the output. -/
theorem c3_counterexample :
    goToks envBase erNone docUrl "" "" (.cons (.unquotedUrl "x") .nil) "" "" [] =
      .ok ("url()", []) ∧ "url()" ≠ "" := by
  exact ⟨by rfl, by decide⟩

/-- Claim C3 (corrected): on resolver failure, a web-scheme (`http`/`https`)
absolute URL is preserved verbatim — quoted for the import-string form,
wrapped in `url(...)` for the two url forms; for any other scheme the
reference literal itself is dropped, which leaves nothing for the quoted
at-import form but leaves the empty wrapper `url()` for the unquoted URL-literal
form (and, via the empty inner result, for the quoted-string-inside-url()
form). -/
theorem c3_failed_fetch_fallback
    (env : Env) (er : Url → String → Except String String) (b : Url)
    (rp v cr cp : String) (reg : Registry)
    (hres : env.retrieve_asset b (env.resolve_url b v) = none)
    (hv : (v == "") = false)
    (hhash : startsWithStr v "#" = false)
    (hcr : (cr == "import") = false)
    (hni : (env.options.no_images && is_image_url_prop cp) = false)
    (himg : (is_image_url_prop cp && env.options.no_images) = false) :
    goTok env er b rp "url" (.quotedString v) "import" cp reg =
      .ok ((if (env.resolve_url b v).scheme == "http" || (env.resolve_url b v).scheme == "https"
        then format_quoted_string env (env.resolve_url b v).str else ""), "", cp, reg) ∧
    goTok env er b rp "url" (.quotedString v) cr cp reg =
      .ok ((if (env.resolve_url b v).scheme == "http" || (env.resolve_url b v).scheme == "https"
        then "url(" ++ format_quoted_string env (env.resolve_url b v).str ++ ")" else ""),
        cr, cp, reg) ∧
    goTok env er b rp "url" (.unquotedUrl v) cr cp reg =
      .ok ((if (env.resolve_url b v).scheme == "http" || (env.resolve_url b v).scheme == "https"
        then "url(" ++ format_quoted_string env (env.resolve_url b v).str ++ ")" else "url()"),
        cr, cp, reg) ∧
    goTok env er b rp "url" (.unquotedUrl v) "import" cp reg =
      .ok ((if (env.resolve_url b v).scheme == "http" || (env.resolve_url b v).scheme == "https"
        then "url(" ++ format_quoted_string env (env.resolve_url b v).str ++ ")" else "url()"),
        "", cp, reg) := by
  refine ⟨?_, ?_, ?_, ?_⟩ <;> rw [goTok] <;>
    simp only [hv, hhash, hcr, hni, himg, hres, beq_self_eq_true, Bool.false_eq_true,
      if_false, if_true, Bool.false_eq_true] <;>
    split <;> rename_i hs <;> simp [hs]

/-- Witness for C3 (corrected) at a concrete failing environment with a
non-web scheme. -/
theorem c3_witness :
    goTok envBase erNone docUrl "" "url" (.quotedString "x") "import" "" [] =
      .ok ((if (envBase.resolve_url docUrl "x").scheme == "http" ||
        (envBase.resolve_url docUrl "x").scheme == "https"
        then format_quoted_string envBase (envBase.resolve_url docUrl "x").str else ""),
        "", "", []) :=
  (c3_failed_fetch_fallback envBase erNone docUrl "" "x" "color" "" [] rfl rfl rfl rfl rfl
    rfl).1

/-! ## Claim C6 -/

/-- Claim C6 evaluated at its failing input: a quoted `#`-fragment literal
inside `url(...)` is resolved against the base and fetched — the output embeds
the data URL built from the fetched asset — while the unquoted form of the
same literal passes through unresolved as the claim states for both. -/
theorem c6_quoted_fragment_is_fetched :
    goToks envFetch erNone docUrl "" ""
        (.cons (.function "url" (.cons (.quotedString "#frag") .nil)) .nil) "" "" [] =
      .ok ("url(\"data:stub-#frag\")", []) ∧
    goToks envFetch erNone docUrl "" "" (.cons (.unquotedUrl "#frag") .nil) "" "" [] =
      .ok ("url(#frag)", []) ∧
    "url(\"data:stub-#frag\")" ≠ "url(#frag)" := by
  exact ⟨by rfl, by rfl, by decide⟩

/-! ## Claim C7 -/

/-- Claim C7: a function token whose name is `url` (ASCII-case-insensitively)
rewrites its argument list recursively, then emits `url()` when the trimmed
inner result is empty, emits the inner result with no additional wrapper when
it already starts with `url(` or `var(`, and wraps it in `url(...)`
otherwise. -/
theorem c7_url_function_wrapping
    (env : Env) (er : Url → String → Except String String) (b : Url)
    (rp fp name : String) (args rest : CTokens) (cr cp : String) (reg : Registry)
    (h : eqIgnoreAsciiCase name "url" = true) :
    goToks env er b rp fp (.cons (.function name args) rest) cr cp reg =
      match goToks env er b cr name args cr cp reg with
      | .error e => .error e
      | .ok (inner0, reg') =>
        prependOk
          (if (cssTrim (finalTrim inner0)).data.isEmpty then "url()"
           else if startsWithStr (cssTrim (finalTrim inner0)) "url(" ||
               startsWithStr (cssTrim (finalTrim inner0)) "var(" then finalTrim inner0
           else "url(" ++ finalTrim inner0 ++ ")")
          (goToks env er b rp fp rest cr cp reg') := by
  rcases hi : goToks env er b cr name args cr cp reg with e | ⟨inner0, reg'⟩
  · rw [goToks, goTok]
    simp only [h, if_true, hi]
  · have hstep : goTok env er b rp fp (.function name args) cr cp reg =
        .ok ((if (cssTrim (finalTrim inner0)).data.isEmpty then "url()"
          else if startsWithStr (cssTrim (finalTrim inner0)) "url(" ||
              startsWithStr (cssTrim (finalTrim inner0)) "var(" then finalTrim inner0
          else "url(" ++ finalTrim inner0 ++ ")"), cr, cp, reg') := by
      rw [goTok]
      simp only [h, if_true, hi]
      split <;> rename_i h1
      · rfl
      · split <;> rfl
    rw [goToks_cons_ok hstep]

/-- Witness for C7 with the uppercase spelling `URL` and an empty argument
list. -/
theorem c7_witness :
    goToks envBase erNone docUrl "" "" (.cons (.function "URL" .nil) .nil) "" "" [] =
      match goToks envBase erNone docUrl "" "URL" CTokens.nil "" "" [] with
      | .error e => .error e
      | .ok (inner0, reg') =>
        prependOk
          (if (cssTrim (finalTrim inner0)).data.isEmpty then "url()"
           else if startsWithStr (cssTrim (finalTrim inner0)) "url(" ||
               startsWithStr (cssTrim (finalTrim inner0)) "var(" then finalTrim inner0
           else "url(" ++ finalTrim inner0 ++ ")")
          (goToks envBase erNone docUrl "" "" CTokens.nil "" "" reg') :=
  c7_url_function_wrapping envBase erNone docUrl "" "" "URL" .nil .nil "" "" [] (by rfl)


/-! ## Claim C10: totality -/

theorem go_total (env : Env) (er : Url → String → Except String String) (b : Url)
    (hEr : ∀ u s, ∃ r, er u s = .ok r) :
    ∀ n : Nat,
      (∀ (t : Token) (rp fp cr cp : String) (reg : Registry), sizeOf t ≤ n →
        ∃ s cr' cp' reg', goTok env er b rp fp t cr cp reg = .ok (s, cr', cp', reg')) ∧
      (∀ (ts : CTokens) (rp fp cr cp : String) (reg : Registry), sizeOf ts ≤ n →
        ∃ s reg', goToks env er b rp fp ts cr cp reg = .ok (s, reg')) := by
  intro n
  induction n using Nat.strong_induction_on with
  | _ n ih =>
  constructor
  · intro t rp fp cr cp reg hsz
    cases t with
    | parenBlock inner =>
      have hin : sizeOf inner < n := by simp at hsz; omega
      rw [goTok]
      split
      · exact ⟨_, _, _, _, rfl⟩
      · obtain ⟨s, reg', hs⟩ := (ih _ hin).2 inner rp fp rp cp reg le_rfl
        rw [hs]
        exact ⟨_, _, _, _, rfl⟩
    | squareBlock inner =>
      have hin : sizeOf inner < n := by simp at hsz; omega
      rw [goTok]
      split
      · exact ⟨_, _, _, _, rfl⟩
      · obtain ⟨s, reg', hs⟩ := (ih _ hin).2 inner rp fp rp cp reg le_rfl
        rw [hs]
        exact ⟨_, _, _, _, rfl⟩
    | curlyBlock inner =>
      have hin : sizeOf inner < n := by simp at hsz; omega
      rw [goTok]
      split
      · exact ⟨_, _, _, _, rfl⟩
      · obtain ⟨s, reg', hs⟩ := (ih _ hin).2 inner rp fp rp cp reg le_rfl
        rw [hs]
        exact ⟨_, _, _, _, rfl⟩
    | quotedString v =>
      rw [goTok]
      rcases hra : env.retrieve_asset b (env.resolve_url b v) with _ | ⟨contents, finalU, mt, ch⟩
      · simp only [hra]
        repeat' split
        all_goals exact ⟨_, _, _, _, rfl⟩
      · obtain ⟨remb, hremb⟩ := hEr finalU (env.utf8_lossy contents)
        simp only [hra, hremb]
        repeat' split
        all_goals exact ⟨_, _, _, _, rfl⟩
    | unquotedUrl v =>
      rw [goTok]
      rcases hra : env.retrieve_asset b (env.resolve_url b v) with _ | ⟨contents, finalU, mt, ch⟩
      · simp only [hra]
        repeat' split
        all_goals exact ⟨_, _, _, _, rfl⟩
      · obtain ⟨remb, hremb⟩ := hEr finalU (env.utf8_lossy contents)
        simp only [hra, hremb]
        repeat' split
        all_goals exact ⟨_, _, _, _, rfl⟩
    | function name args =>
      have hin : sizeOf args < n := by simp at hsz; omega
      rw [goTok]
      split
      · obtain ⟨s, reg', hs⟩ := (ih _ hin).2 args cr name cr cp reg le_rfl
        simp only [hs]
        repeat' split
        all_goals exact ⟨_, _, _, _, rfl⟩
      · obtain ⟨s, reg', hs⟩ := (ih _ hin).2 args cr name cr cp reg le_rfl
        simp only [hs]
        exact ⟨_, _, _, _, rfl⟩
    | atKeyword v =>
      rw [goTok]
      split
      all_goals exact ⟨_, _, _, _, rfl⟩
    | _ =>
      rw [goTok]
      exact ⟨_, _, _, _, rfl⟩
  · intro ts rp fp cr cp reg hsz
    cases ts with
    | nil => exact ⟨"", reg, by rw [goToks]⟩
    | cons t rest =>
      have h1 : sizeOf t < n := by simp at hsz; omega
      have h2 : sizeOf rest < n := by simp at hsz; omega
      obtain ⟨s, cr', cp', reg', hs⟩ := (ih _ h1).1 t rp fp cr cp reg le_rfl
      obtain ⟨s2, reg2, hs2⟩ := (ih _ h2).2 rest rp fp cr' cp' reg' le_rfl
      rw [goToks]
      simp only [hs, hs2]
      exact ⟨_, _, rfl⟩


theorem goToks_total (env : Env) (er : Url → String → Except String String) (b : Url)
    (hEr : ∀ u s, ∃ r, er u s = .ok r) (ts : CTokens) (rp fp cr cp : String) (reg : Registry) :
    ∃ s reg', goToks env er b rp fp ts cr cp reg = .ok (s, reg') :=
  (go_total env er b hEr (sizeOf ts)).2 ts rp fp cr cp reg le_rfl

theorem process_css_total (env : Env) (er : Url → String → Except String String) (b : Url)
    (hEr : ∀ u s, ∃ r, er u s = .ok r) (rule prop func : String) (ts : CTokens)
    (reg : Registry) :
    ∃ s reg', process_css env er b rule prop func ts reg = .ok (s, reg') := by
  obtain ⟨s, reg', hs⟩ := goToks_total env er b hEr ts rule func rule prop reg
  exact ⟨finalTrim s, reg', by rw [process_css, hs]⟩

theorem embed_css_total (env : Env) : ∀ (fuel : Nat) (b : Url) (css : String),
    ∃ out, embed_css env fuel b css = .ok out := by
  intro fuel
  induction fuel with
  | zero => intro b css; exact ⟨"", rfl⟩
  | succ f ihf =>
    intro b css
    obtain ⟨out, reg', h⟩ :=
      process_css_total env (embed_css env f) b (fun u s => ihf u s) "" "" "" (env.tokenize css) []
    refine ⟨if reg'.isEmpty then out else out ++ css_trailer (env.values_order reg'), ?_⟩
    show embed_css_body env (embed_css env f) b css = _
    rw [embed_css_body]
    simp only [h]

/-- Claim C10: the rewriter is total and never produces its error value — for
every environment, fuel, base URL and stylesheet (token stream), `embed_css`
returns `.ok`, and `process_css` (with the recursive embed it is actually run
with) returns `.ok`; hence the `.unwrap()` calls on the `process_css` and
`parse_nested_block` results never panic. -/
theorem c10_total_no_panic :
    (∀ (env : Env) (fuel : Nat) (b : Url) (css : String),
      ∃ out, embed_css env fuel b css = .ok out) ∧
    (∀ (env : Env) (fuel : Nat) (b : Url) (rule prop func : String) (ts : CTokens)
      (reg : Registry),
      ∃ s reg', process_css env (embed_css env fuel) b rule prop func ts reg = .ok (s, reg')) :=
  ⟨fun env fuel b css => embed_css_total env fuel b css,
   fun env fuel b rule prop func ts reg =>
     process_css_total env _ b (embed_css_total env fuel) rule prop func ts reg⟩


/-! ## Claim C1: dedup registry -/


theorem lookupAsset_none_not_mem {reg : Registry} {k : String}
    (h : lookupAsset reg k = none) : k ∉ regKeys reg := by
  intro hk
  obtain ⟨e, he, hek⟩ : ∃ e ∈ reg, e.1 = k := by
    simpa [regKeys] using hk
  rw [lookupAsset] at h
  rcases hf : reg.find? (fun e => e.1 == k) with _ | e'
  · have := List.find?_eq_none.mp hf e he
    simp [hek] at this
  · rw [hf] at h; simp at h

theorem lookupAsset_some_mem {reg : Registry} {k : String} {a : CssPropAsset}
    (h : lookupAsset reg k = some a) : ∃ e, e ∈ reg ∧ e.1 = k ∧ e.2 = a := by
  rw [lookupAsset] at h
  rcases hf : reg.find? (fun e => e.1 == k) with _ | e
  · rw [hf] at h; simp at h
  · rw [hf] at h
    simp at h
    have h1 := List.find?_some hf
    have h2 := List.mem_of_find?_eq_some hf
    simp at h1
    exact ⟨e, h2, h1, h⟩

theorem regInv_insert {reg : Registry} {k : String} {a : CssPropAsset}
    (hk : lookupAsset reg k = none) (ha : a.prop_name = "img-" ++ hash_url k)
    (h : RegInv reg) : RegInv (reg ++ [(k, a)]) := by
  obtain ⟨hnd, hni⟩ := h
  constructor
  · have hkeys : regKeys (reg ++ [(k, a)]) = regKeys reg ++ [k] := by simp [regKeys]
    rw [hkeys]
    simp [List.nodup_append, hnd, lookupAsset_none_not_mem hk]
  · intro e he
    rcases List.mem_append.mp he with h1 | h2
    · exact hni e h1
    · simp at h2
      rw [h2]
      exact ha

theorem go_reg (env : Env) (er : Url → String → Except String String) (b : Url) :
    ∀ n : Nat,
      (∀ (t : Token) (rp fp cr cp : String) (reg : Registry) (s cr' cp' : String)
        (reg' : Registry), sizeOf t ≤ n →
        goTok env er b rp fp t cr cp reg = .ok (s, cr', cp', reg') → RegInv reg → RegInv reg') ∧
      (∀ (ts : CTokens) (rp fp cr cp : String) (reg : Registry) (s : String)
        (reg' : Registry), sizeOf ts ≤ n →
        goToks env er b rp fp ts cr cp reg = .ok (s, reg') → RegInv reg → RegInv reg') := by
  intro n
  induction n using Nat.strong_induction_on with
  | _ n ih =>
  constructor
  · intro t rp fp cr cp reg s cr' cp' reg' hsz h hinv
    cases t with
    | parenBlock inner =>
      have hin : sizeOf inner < n := by simp at hsz; omega
      rw [goTok] at h
      split at h
      · simp only [Except.ok.injEq, Prod.mk.injEq] at h
        obtain ⟨-, -, -, h4⟩ := h
        rw [← h4]; exact hinv
      · rcases hi : goToks env er b rp fp inner rp cp reg with e | ⟨bc, reg0⟩ <;>
          simp only [hi] at h
        · exact Except.noConfusion h
        · simp only [Except.ok.injEq, Prod.mk.injEq] at h
          obtain ⟨-, -, -, h4⟩ := h
          rw [← h4]
          exact (ih _ hin).2 inner rp fp rp cp reg bc reg0 le_rfl hi hinv
    | squareBlock inner =>
      have hin : sizeOf inner < n := by simp at hsz; omega
      rw [goTok] at h
      split at h
      · simp only [Except.ok.injEq, Prod.mk.injEq] at h
        obtain ⟨-, -, -, h4⟩ := h
        rw [← h4]; exact hinv
      · rcases hi : goToks env er b rp fp inner rp cp reg with e | ⟨bc, reg0⟩ <;>
          simp only [hi] at h
        · exact Except.noConfusion h
        · simp only [Except.ok.injEq, Prod.mk.injEq] at h
          obtain ⟨-, -, -, h4⟩ := h
          rw [← h4]
          exact (ih _ hin).2 inner rp fp rp cp reg bc reg0 le_rfl hi hinv
    | curlyBlock inner =>
      have hin : sizeOf inner < n := by simp at hsz; omega
      rw [goTok] at h
      split at h
      · simp only [Except.ok.injEq, Prod.mk.injEq] at h
        obtain ⟨-, -, -, h4⟩ := h
        rw [← h4]; exact hinv
      · rcases hi : goToks env er b rp fp inner rp cp reg with e | ⟨bc, reg0⟩ <;>
          simp only [hi] at h
        · exact Except.noConfusion h
        · simp only [Except.ok.injEq, Prod.mk.injEq] at h
          obtain ⟨-, -, -, h4⟩ := h
          rw [← h4]
          exact (ih _ hin).2 inner rp fp rp cp reg bc reg0 le_rfl hi hinv
    | function name args =>
      have hin : sizeOf args < n := by simp at hsz; omega
      rw [goTok] at h
      rcases hi : goToks env er b cr name args cr cp reg with e | ⟨bc, reg0⟩ <;>
        simp only [hi] at h <;> repeat' split at h
      all_goals first
        | exact Except.noConfusion h
        | (simp only [Except.ok.injEq, Prod.mk.injEq] at h
           obtain ⟨-, -, -, h4⟩ := h
           rw [← h4]
           exact (ih _ hin).2 args cr name cr cp reg bc reg0 le_rfl hi hinv)
    | quotedString v =>
      rw [goTok] at h
      rcases hra : env.retrieve_asset b (env.resolve_url b v) with _ | ⟨contents, finalU, mt, ch⟩ <;>
        simp only [hra] at h
      · repeat' split at h
        all_goals first
          | exact Except.noConfusion h
          | (simp only [Except.ok.injEq, Prod.mk.injEq] at h
             obtain ⟨-, -, -, h4⟩ := h
             rw [← h4]; exact hinv)
      · rcases her : er finalU (env.utf8_lossy contents) with e | emb <;>
          rcases hl : lookupAsset reg finalU.str with _ | a <;>
          simp only [her, hl] at h <;> repeat' split at h
        all_goals first
          | exact Except.noConfusion h
          | (simp only [Except.ok.injEq, Prod.mk.injEq] at h
             obtain ⟨-, -, -, h4⟩ := h
             rw [← h4]
             first
               | exact hinv
               | exact regInv_insert hl rfl hinv)
    | unquotedUrl v =>
      rw [goTok] at h
      rcases hra : env.retrieve_asset b (env.resolve_url b v) with _ | ⟨contents, finalU, mt, ch⟩ <;>
        simp only [hra] at h
      · repeat' split at h
        all_goals first
          | exact Except.noConfusion h
          | (simp only [Except.ok.injEq, Prod.mk.injEq] at h
             obtain ⟨-, -, -, h4⟩ := h
             rw [← h4]; exact hinv)
      · rcases her : er finalU (env.utf8_lossy contents) with e | emb <;>
          rcases hl : lookupAsset reg finalU.str with _ | a <;>
          simp only [her, hl] at h <;> repeat' split at h
        all_goals first
          | exact Except.noConfusion h
          | (simp only [Except.ok.injEq, Prod.mk.injEq] at h
             obtain ⟨-, -, -, h4⟩ := h
             rw [← h4]
             first
               | exact hinv
               | exact regInv_insert hl rfl hinv)
    | atKeyword v =>
      rw [goTok] at h
      split at h
      all_goals
        simp only [Except.ok.injEq, Prod.mk.injEq] at h
        obtain ⟨-, -, -, h4⟩ := h
        rw [← h4]; exact hinv
    | _ =>
      rw [goTok] at h
      simp only [Except.ok.injEq, Prod.mk.injEq] at h
      obtain ⟨-, -, -, h4⟩ := h
      rw [← h4]; exact hinv
  · intro ts rp fp cr cp reg s reg' hsz h hinv
    cases ts with
    | nil =>
      rw [goToks] at h
      simp only [Except.ok.injEq, Prod.mk.injEq] at h
      obtain ⟨-, h2⟩ := h
      rw [← h2]; exact hinv
    | cons t rest =>
      have h1 : sizeOf t < n := by simp at hsz; omega
      have h2 : sizeOf rest < n := by simp at hsz; omega
      rw [goToks] at h
      rcases ht : goTok env er b rp fp t cr cp reg with e | ⟨s1, cr1, cp1, reg1⟩ <;>
        simp only [ht] at h
      · exact Except.noConfusion h
      · rcases hr : goToks env er b rp fp rest cr1 cp1 reg1 with e | ⟨s2, reg2⟩ <;>
          simp only [hr] at h
        · exact Except.noConfusion h
        · simp only [Except.ok.injEq, Prod.mk.injEq] at h
          obtain ⟨-, h4⟩ := h
          rw [← h4]
          exact (ih _ h2).2 rest rp fp cr1 cp1 reg1 s2 reg2 le_rfl hr
            ((ih _ h1).1 t rp fp cr cp reg s1 cr1 cp1 reg1 le_rfl ht hinv)

theorem regInv_nil : RegInv [] :=
  ⟨by simp [regKeys], fun e he => absurd he (List.not_mem_nil e)⟩

theorem filter_key_nil {reg : Registry} {u : String} (h : u ∉ regKeys reg) :
    reg.filter (fun e => e.1 == u) = [] := by
  induction reg with
  | nil => rfl
  | cons e rest ihr =>
    simp only [regKeys, List.map_cons, List.mem_cons, not_or] at h
    obtain ⟨h1, h2⟩ := h
    rw [List.filter_cons]
    simp only [show (e.1 == u) = false by simpa using fun hh => h1 (by rw [hh]), if_false,
      Bool.false_eq_true]
    exact ihr h2

theorem count_key_one {reg : Registry} (hnd : (regKeys reg).Nodup) {u : String}
    (hu : u ∈ regKeys reg) : (reg.filter (fun e => e.1 == u)).length = 1 := by
  induction reg with
  | nil => simp [regKeys] at hu
  | cons e rest ihr =>
    simp only [regKeys, List.map_cons, List.nodup_cons] at hnd
    obtain ⟨hne, hnd'⟩ := hnd
    rcases (show u = e.1 ∨ u ∈ regKeys rest by simpa [regKeys] using hu) with h1 | h2
    · rw [List.filter_cons]
      simp only [show (e.1 == u) = true by simp [h1], if_true]
      have : rest.filter (fun e' => e'.1 == u) = [] :=
        filter_key_nil (by rw [h1]; exact hne)
      simp [this]
    · rw [List.filter_cons]
      have hne' : (e.1 == u) = false := by
        simp only [beq_eq_false_iff_ne, ne_eq]
        intro hh
        exact hne (by rw [hh]; exact h2)
      simp only [hne', Bool.false_eq_true, if_false]
      exact ihr hnd' h2

theorem goTok_dedup_quoted (env : Env) (er : Url → String → Except String String) (b : Url)
    (rp v cr cp : String) (reg : Registry)
    (data : List Nat) (finalU : Url) (mt ch : String)
    (hexp : env.options.exp_css_prop_assets = true)
    (himg : is_image_url_prop cp = true)
    (hni : env.options.no_images = false)
    (hcr : (cr == "import") = false)
    (hv : (v == "") = false)
    (hra : env.retrieve_asset b (env.resolve_url b v) = some (data, finalU, mt, ch))
    (hinv : NameInv reg) :
    ∃ reg₁, goTok env er b rp "url" (.quotedString v) cr cp reg =
        .ok ("var(--" ++ ("img-" ++ hash_url finalU.str) ++ ")", cr, cp, reg₁) ∧
      finalU.str ∈ regKeys reg₁ := by
  rw [goTok]
  have hni' : (env.options.no_images && is_image_url_prop cp) = false := by simp [hni]
  have hde : (is_image_url_prop cp && env.options.exp_css_prop_assets) = true := by
    simp [himg, hexp]
  simp only [hcr, hv, hni', hde, hra, Bool.false_eq_true, if_false, if_true, beq_self_eq_true]
  rcases hl : lookupAsset reg finalU.str with _ | a <;> simp only [hl]
  · exact ⟨_, rfl, by simp [regKeys]⟩
  · obtain ⟨e, he, hek, hea⟩ := lookupAsset_some_mem hl
    have hname : a.prop_name = "img-" ++ hash_url finalU.str := by
      rw [← hea, hinv e he, hek]
    rw [hname]
    refine ⟨reg, rfl, ?_⟩
    rw [← hek]
    exact List.mem_map_of_mem _ he

theorem goTok_dedup_unquoted (env : Env) (er : Url → String → Except String String) (b : Url)
    (rp fp v cr cp : String) (reg : Registry)
    (data : List Nat) (finalU : Url) (mt ch : String)
    (hexp : env.options.exp_css_prop_assets = true)
    (himg : is_image_url_prop cp = true)
    (hni : env.options.no_images = false)
    (hcr : (cr == "import") = false)
    (hv : (v == "") = false)
    (hhash : startsWithStr v "#" = false)
    (hra : env.retrieve_asset b (env.resolve_url b v) = some (data, finalU, mt, ch))
    (hinv : NameInv reg) :
    ∃ reg₁, goTok env er b rp fp (.unquotedUrl v) cr cp reg =
        .ok ("var(--" ++ ("img-" ++ hash_url finalU.str) ++ ")", cr, cp, reg₁) ∧
      finalU.str ∈ regKeys reg₁ := by
  rw [goTok]
  have hni' : (env.options.no_images && is_image_url_prop cp) = false := by simp [hni]
  have himg' : (is_image_url_prop cp && env.options.no_images) = false := by simp [hni]
  have hde : (is_image_url_prop cp && env.options.exp_css_prop_assets) = true := by
    simp [himg, hexp]
  simp only [hcr, hv, hhash, hni', himg', hde, hra, Bool.false_eq_true, if_false, if_true]
  rcases hl : lookupAsset reg finalU.str with _ | a <;> simp only [hl]
  · exact ⟨_, rfl, by simp [regKeys]⟩
  · obtain ⟨e, he, hek, hea⟩ := lookupAsset_some_mem hl
    have hname : a.prop_name = "img-" ++ hash_url finalU.str := by
      rw [← hea, hinv e he, hek]
    rw [hname]
    refine ⟨reg, rfl, ?_⟩
    rw [← hek]
    exact List.mem_map_of_mem _ he

/-- Claim C1: under dedup mode, (i) a successful image-property `url`
reference — quoted or unquoted — whose asset resolves to `finalU` is replaced
by exactly `var(--img-<hex SHA-256 of finalU>)`, whichever occurrence it is
(hit or miss in the registry), so any two references with the same final URL
get the same name; (ii) processing preserves the registry invariant (no two
entries for the same final URL, every generated name the digest of its key);
(iii) a top-level `embed_css` run appends the trailer once per registry entry,
and an asset present in the final registry owns exactly one entry — hence
exactly one `@property` declaration — regardless of how many occurrences
referenced it. -/
theorem c1_dedup_same_name_unique_registry
    (env : Env) (er : Url → String → Except String String) (b : Url)
    (rp fp v cr cp : String) (reg : Registry)
    (data : List Nat) (finalU : Url) (mt ch : String)
    (hperm : ∀ l : Registry, (env.values_order l).Perm l)
    (hexp : env.options.exp_css_prop_assets = true)
    (himg : is_image_url_prop cp = true)
    (hni : env.options.no_images = false)
    (hcr : (cr == "import") = false)
    (hv : (v == "") = false)
    (hhash : startsWithStr v "#" = false)
    (hra : env.retrieve_asset b (env.resolve_url b v) = some (data, finalU, mt, ch))
    (hinv : RegInv reg) :
    (∃ reg₁, goTok env er b rp "url" (.quotedString v) cr cp reg =
        .ok ("var(--" ++ ("img-" ++ hash_url finalU.str) ++ ")", cr, cp, reg₁) ∧
      finalU.str ∈ regKeys reg₁) ∧
    (∃ reg₁, goTok env er b rp fp (.unquotedUrl v) cr cp reg =
        .ok ("var(--" ++ ("img-" ++ hash_url finalU.str) ++ ")", cr, cp, reg₁) ∧
      finalU.str ∈ regKeys reg₁) ∧
    (∀ (ts : CTokens) (rp' fp' cr' cp' : String) (reg₀ : Registry) (s : String)
      (reg₁ : Registry), goToks env er b rp' fp' ts cr' cp' reg₀ = .ok (s, reg₁) →
      RegInv reg₀ → RegInv reg₁) ∧
    (∀ (fuel : Nat) (css : String) (out : String) (assets : Registry),
      process_css env (embed_css env fuel) b "" "" "" (env.tokenize css) [] =
        .ok (out, assets) →
      embed_css env (fuel + 1) b css =
        .ok (if assets.isEmpty then out else out ++ css_trailer (env.values_order assets)) ∧
      RegInv assets ∧
      ∀ u, u ∈ regKeys assets →
        ((env.values_order assets).filter (fun e => e.1 == u)).length = 1) := by
  refine ⟨goTok_dedup_quoted env er b rp v cr cp reg data finalU mt ch hexp himg hni hcr hv
      hra hinv.2,
    goTok_dedup_unquoted env er b rp fp v cr cp reg data finalU mt ch hexp himg hni hcr hv
      hhash hra hinv.2, ?_, ?_⟩
  · intro ts rp' fp' cr' cp' reg₀ s reg₁ hg hinv₀
    exact (go_reg env er b (sizeOf ts)).2 ts rp' fp' cr' cp' reg₀ s reg₁ le_rfl hg hinv₀
  · intro fuel css out assets hp
    have hassets : RegInv assets := by
      rw [process_css] at hp
      rcases hg : goToks env (embed_css env fuel) b "" "" (env.tokenize css) "" "" []
        with e | ⟨s0, reg0⟩ <;> simp only [hg] at hp
      · exact Except.noConfusion hp
      · simp only [Except.ok.injEq, Prod.mk.injEq] at hp
        obtain ⟨-, h4⟩ := hp
        rw [← h4]
        exact (go_reg env (embed_css env fuel) b (sizeOf (env.tokenize css))).2
          (env.tokenize css) "" "" "" "" [] s0 reg0 le_rfl hg regInv_nil
    refine ⟨?_, hassets, ?_⟩
    · show embed_css_body env (embed_css env fuel) b css = _
      rw [embed_css_body, hp]
    · intro u hu
      have hperm' := (hperm assets).filter (fun e => e.1 == u)
      rw [List.Perm.length_eq hperm']
      exact count_key_one hassets.1 hu

/-- Witness for C1 at a concrete dedup environment with an empty starting
registry. -/
theorem c1_witness :
    ∃ reg₁, goTok envDedup erNone docUrl "" "url" (.quotedString "a.png") "" "background" [] =
        .ok ("var(--" ++ ("img-" ++
          hash_url (Url.mk "a.png" "http" none).str) ++ ")", "", "background", reg₁) ∧
      (Url.mk "a.png" "http" none).str ∈ regKeys reg₁ :=
  (c1_dedup_same_name_unique_registry envDedup erNone docUrl "" "" "a.png" "" "background"
    [] [104, 105] (Url.mk "a.png" "http" none) "image/png" ""
    (fun l => List.Perm.refl l) rfl (by decide) rfl rfl rfl rfl rfl regInv_nil).1


/-! ## Claims C2 and C5 -/

set_option maxRecDepth 8192 in
/-- Claim C2 evaluated at its failing input: with two distinct assets in the
registry, the same input CSS, base URL and resolver responses produce
different bytes under two legitimate `HashMap::values()` iteration orders
(the two environments differ only in `values_order`, the stand-in for the
per-process random hasher seed), and reversal is a permutation, i.e. a
possible iteration order of the same map contents. -/
theorem c2_trailer_order_depends_on_seed :
    okStr (embed_css envTwoAssets 1 docUrl "") ≠
      okStr (embed_css envTwoAssetsRev 1 docUrl "") ∧
    (∀ l : Registry, (List.reverse l).Perm l) := by
  constructor
  · decide
  · exact fun l => List.reverse_perm l

/-- Claim C5: a quoted string (and likewise an unquoted URL) consumed while
the current rule is `import` is fetched; the fetched bytes are rewritten by
the full recursive embed with the final URL as the new base (`embed_css env
fuel`, the exact recursive call `embed_css` at the next fuel level passes for
`er`), the result is wrapped into one inline data encoding (with the resolved
URL fragment re-attached) that replaces the reference; and the returned
current rule name is cleared to `""` immediately, so no later token of the
same at-rule is treated as an import target. -/
theorem c5_import_recursive_embed
    (env : Env) (fuel : Nat) (b : Url) (rp fp v cp : String) (reg : Registry)
    (contents : List Nat) (finalU : Url) (mt ch : String)
    (hv : (v == "") = false)
    (hhash : startsWithStr v "#" = false)
    (hra : env.retrieve_asset b (env.resolve_url b v) = some (contents, finalU, mt, ch)) :
    ∃ embedded, embed_css env fuel finalU (env.utf8_lossy contents) = .ok embedded ∧
      goTok env (embed_css env fuel) b rp fp (.quotedString v) "import" cp reg =
        .ok (format_quoted_string env
          (env.set_fragment (env.create_data_url mt ch (utf8Bytes embedded) finalU)
            (env.resolve_url b v).fragment).str, "", cp, reg) ∧
      goTok env (embed_css env fuel) b rp fp (.unquotedUrl v) "import" cp reg =
        .ok ("url(" ++ format_quoted_string env
          (env.set_fragment (env.create_data_url mt ch (utf8Bytes embedded) finalU)
            (env.resolve_url b v).fragment).str ++ ")", "", cp, reg) := by
  obtain ⟨embedded, he⟩ := embed_css_total env fuel finalU (env.utf8_lossy contents)
  refine ⟨embedded, he, ?_, ?_⟩
  · rw [goTok]
    simp only [beq_self_eq_true, if_true, hv, Bool.false_eq_true, if_false, hra, he]
  · rw [goTok]
    simp only [beq_self_eq_true, if_true, hv, hhash, Bool.false_eq_true, if_false, hra, he]

/-- Witness for C5 at a concrete fetching environment. -/
theorem c5_witness :
    ∃ embedded, embed_css envFetch 1 (Url.mk "inner.css" "http" none)
        (envFetch.utf8_lossy [104, 105]) = .ok embedded ∧
      goTok envFetch (embed_css envFetch 1) docUrl "" "" (.quotedString "inner.css")
          "import" "" [] =
        .ok (format_quoted_string envFetch
          (envFetch.set_fragment
            (envFetch.create_data_url "image/png" "" (utf8Bytes embedded)
              (Url.mk "inner.css" "http" none))
            (envFetch.resolve_url docUrl "inner.css").fragment).str, "", "", []) ∧
      goTok envFetch (embed_css envFetch 1) docUrl "" "" (.unquotedUrl "inner.css")
          "import" "" [] =
        .ok ("url(" ++ format_quoted_string envFetch
          (envFetch.set_fragment
            (envFetch.create_data_url "image/png" "" (utf8Bytes embedded)
              (Url.mk "inner.css" "http" none))
            (envFetch.resolve_url docUrl "inner.css").fragment).str ++ ")", "", "", []) :=
  c5_import_recursive_embed envFetch 1 docUrl "" "" "inner.css" "" [] [104, 105]
    (Url.mk "inner.css" "http" none) "image/png" "" rfl rfl rfl


/-! ## Claim C9: identity on reference-free input -/

theorem filter_dropWhile_ws (l : List Char) :
    (l.dropWhile isCssWs).filter (fun c => !isCssWs c) = l.filter (fun c => !isCssWs c) := by
  induction l with
  | nil => rfl
  | cons c rest ihr =>
    by_cases hc : isCssWs c = true
    · rw [List.dropWhile_cons]
      simp only [hc, if_true, List.filter_cons, Bool.not_true, Bool.false_eq_true, if_false]
      exact ihr
    · rw [List.dropWhile_cons]
      simp only [hc, Bool.false_eq_true, if_false]

theorem filter_ws_of_dropWhile_nil {l : List Char} (h : l.dropWhile isCssWs = []) :
    l.filter (fun c => !isCssWs c) = [] := by
  rw [← filter_dropWhile_ws, h]
  rfl

theorem trimWsList_nil_filter {l : List Char} (h : trimWsList l = []) :
    l.filter (fun c => !isCssWs c) = [] := by
  rw [trimWsList] at h
  have h1 : (l.dropWhile isCssWs).reverse.dropWhile isCssWs = [] := by
    have := congrArg List.reverse h
    simpa using this
  have h2 : (l.dropWhile isCssWs).reverse.filter (fun c => !isCssWs c) = [] :=
    filter_ws_of_dropWhile_nil h1
  rw [List.filter_reverse] at h2
  have h3 : (l.dropWhile isCssWs).filter (fun c => !isCssWs c) = [] := by
    have := congrArg List.reverse h2
    simpa using this
  rw [← filter_dropWhile_ws]
  exact h3

theorem wsErase_append (s t : String) : wsErase (s ++ t) = wsErase s ++ wsErase t := by
  simp [wsErase, String.data_append, List.filter_append]

theorem wsErase_cssTrim (s : String) : wsErase (cssTrim s) = wsErase s := by
  rw [wsErase, wsErase, cssTrim, trimWsList]
  rw [List.filter_reverse, filter_dropWhile_ws, List.filter_reverse]
  simp [filter_dropWhile_ws]

theorem wsErase_finalTrim (s : String) : wsErase (finalTrim s) = wsErase s := by
  rw [finalTrim]
  split
  · rename_i h
    rw [Bool.and_eq_true] at h
    obtain ⟨-, h2⟩ := h
    rw [wsErase_cssTrim]
  · rfl

theorem go_pure (env : Env) (er : Url → String → Except String String) (b : Url)
    (hnf : env.options.no_fonts = false) :
    ∀ n : Nat,
      (∀ (t : Token) (rp fp cr cp : String) (reg : Registry), sizeOf t ≤ n →
        (pureTok rp fp t cr).1 = true →
        ∃ out cp', goTok env er b rp fp t cr cp reg =
            .ok (out, (pureTok rp fp t cr).2, cp', reg) ∧
          wsErase out = wsErase (specSerializeTok env t)) ∧
      (∀ (ts : CTokens) (rp fp cr cp : String) (reg : Registry), sizeOf ts ≤ n →
        pureToks rp fp ts cr = true →
        ∃ out, goToks env er b rp fp ts cr cp reg = .ok (out, reg) ∧
          wsErase out = wsErase (specSerialize env ts)) := by
  intro n
  induction n using Nat.strong_induction_on with
  | _ n ih =>
  constructor
  · intro t rp fp cr cp reg hsz hp
    cases t with
    | parenBlock inner =>
      have hin : sizeOf inner < n := by simp at hsz; omega
      rw [pureTok] at hp
      obtain ⟨bc, hbc, hwsb⟩ := (ih _ hin).2 inner rp fp rp cp reg le_rfl hp
      rw [goTok]
      simp only [hnf, Bool.false_and, Bool.false_eq_true, if_false, hbc]
      refine ⟨_, cp, by rw [pureTok], ?_⟩
      simp only [specSerializeTok, wsErase_append, wsErase_finalTrim, hwsb]
    | squareBlock inner =>
      have hin : sizeOf inner < n := by simp at hsz; omega
      rw [pureTok] at hp
      obtain ⟨bc, hbc, hwsb⟩ := (ih _ hin).2 inner rp fp rp cp reg le_rfl hp
      rw [goTok]
      simp only [hnf, Bool.false_and, Bool.false_eq_true, if_false, hbc]
      refine ⟨_, cp, by rw [pureTok], ?_⟩
      simp only [specSerializeTok, wsErase_append, wsErase_finalTrim, hwsb]
    | curlyBlock inner =>
      have hin : sizeOf inner < n := by simp at hsz; omega
      rw [pureTok] at hp
      obtain ⟨bc, hbc, hwsb⟩ := (ih _ hin).2 inner rp fp rp cp reg le_rfl hp
      rw [goTok]
      simp only [hnf, Bool.false_and, Bool.false_eq_true, if_false, hbc]
      refine ⟨_, cp, by rw [pureTok], ?_⟩
      simp only [specSerializeTok, wsErase_append, wsErase_finalTrim, hwsb]
    | function name args =>
      have hin : sizeOf args < n := by simp at hsz; omega
      rw [pureTok] at hp
      rw [Bool.and_eq_true] at hp
      obtain ⟨hn, hargs⟩ := hp
      rw [Bool.not_eq_true'] at hn
      obtain ⟨bc, hbc, hwsb⟩ := (ih _ hin).2 args cr name cr cp reg le_rfl hargs
      rw [goTok]
      simp only [hn, Bool.false_eq_true, if_false, hbc]
      refine ⟨_, cp, by rw [pureTok], ?_⟩
      simp only [specSerializeTok, wsErase_append, wsErase_finalTrim, hwsb]
    | atKeyword v =>
      rw [goTok]
      simp only [hnf, Bool.false_and, Bool.false_eq_true, if_false]
      exact ⟨_, cp, by rw [pureTok], by rw [specSerializeTok]⟩
    | ident v =>
      rw [goTok]
      exact ⟨_, v, by rw [pureTok], by rw [specSerializeTok]⟩
    | quotedString v =>
      rw [pureTok] at hp
      rw [Bool.not_eq_true'] at hp
      have h1 : (cr == "import") = false := by
        rcases Bool.or_eq_false_iff.mp hp with ⟨ha, -⟩
        exact ha
      have h2 : (fp == "url") = false := by
        rcases Bool.or_eq_false_iff.mp hp with ⟨-, hb⟩
        exact hb
      rw [goTok]
      simp only [h1, h2, Bool.false_eq_true, if_false]
      exact ⟨_, cp, by rw [pureTok], by rw [specSerializeTok]⟩
    | unquotedUrl v =>
      rw [pureTok] at hp
      rw [goTok]
      by_cases hv : (v == "") = true
      · have hveq : v = "" := by simpa using hv
        subst hveq
        simp only [beq_self_eq_true, if_true]
        refine ⟨_, cp, by rw [pureTok], ?_⟩
        rw [specSerializeTok]
        rfl
      · have hvf : (v == "") = false := by simpa using hv
        have hh : startsWithStr v "#" = true := by
          rcases Bool.or_eq_true_iff.mp hp with ha | hb
          · exact absurd ha hv
          · exact hb
        simp only [hvf, Bool.false_eq_true, if_false, hh, if_true]
        refine ⟨_, cp, ?_, by rw [specSerializeTok]⟩
        rw [pureTok]
    | _ =>
      rw [goTok]
      exact ⟨_, cp, by rw [pureTok], by rw [specSerializeTok]⟩
  · intro ts rp fp cr cp reg hsz hp
    cases ts with
    | nil => exact ⟨"", by rw [goToks], by rw [specSerialize]⟩
    | cons t rest =>
      have h1 : sizeOf t < n := by simp at hsz; omega
      have h2 : sizeOf rest < n := by simp at hsz; omega
      rw [pureToks] at hp
      rw [Bool.and_eq_true] at hp
      obtain ⟨hp1, hp2⟩ := hp
      obtain ⟨out1, cp', ht, hws1⟩ := (ih _ h1).1 t rp fp cr cp reg le_rfl hp1
      obtain ⟨out2, hts, hws2⟩ :=
        (ih _ h2).2 rest rp fp (pureTok rp fp t cr).2 cp' reg le_rfl hp2
      rw [goToks]
      simp only [ht, hts]
      refine ⟨out1 ++ out2, rfl, ?_⟩
      rw [specSerialize]
      simp only [wsErase_append, hws1, hws2]

/-- Claim C9: for token streams with no external references (`pureToks`), and
any base URL, resolver and registry state, the embed is the identity transform
up to whitespace and escaping normalization: the output of `embed_css` agrees
with the canonical per-token re-serialization (`specSerialize`, which
reproduces every byte of each non-reference token, re-escaped through the
same identifier/string serializers) after erasing whitespace, and the
registry stays empty, so no trailer is appended. -/
theorem c9_no_refs_identity (env : Env) (fuel : Nat) (b : Url) (css : String)
    (hnf : env.options.no_fonts = false)
    (hpure : pureToks "" "" (env.tokenize css) "" = true) :
    ∃ out, embed_css env (fuel + 1) b css = .ok out ∧
      wsErase out = wsErase (specSerialize env (env.tokenize css)) := by
  obtain ⟨out0, hg, hws⟩ :=
    (go_pure env (embed_css env fuel) b hnf (sizeOf (env.tokenize css))).2
      (env.tokenize css) "" "" "" "" [] le_rfl hpure
  refine ⟨finalTrim out0, ?_, ?_⟩
  · show embed_css_body env (embed_css env fuel) b css = _
    rw [embed_css_body, process_css]
    simp only [hg]
    rfl
  · rw [wsErase_finalTrim]
    exact hws

/-- Witness for C9 on a concrete pure stylesheet. -/
theorem c9_witness :
    ∃ out, embed_css envPure 1 docUrl "" = .ok out ∧
      wsErase out = wsErase (specSerialize envPure (envPure.tokenize "")) :=
  c9_no_refs_identity envPure 0 docUrl "" rfl (by rfl)

end Monolith
